import Mathlib

/-!
Verification development for the breakout repository: a shallow embedding of
the orchestrator (src/orchestrator/main.py) and the scorer
(src/scoring/scorer.py), with theorems settling the frozen claims about the
command-extraction parser, the orchestration loop, the repeat guard, the
sandbox-execution wrapper and the metrics computation.

The embedding models Python strings as Lean `String`/`List Char` restricted to
ASCII text (the blocks the program handles), Python ints as `Int`, and Python
floats as exact rationals (plus explicit nan/inf markers where the scorer can
produce them).  Regular expressions from the source are translated into
explicit character-level matching functions that reproduce the engine's
leftmost-match, greedy/lazy and backtracking behaviour for the concrete
patterns appearing in the source.
-/

namespace Breakout

/-- Whitespace as matched by Python's `str.strip` and the `re` module's
whitespace class on ASCII text: space, tab, newline, carriage return,
vertical tab (0x0b) and form feed (0x0c). -/
def isWs (c : Char) : Bool :=
  c = ' ' || c = '\t' || c = '\n' || c = '\r' || c.toNat = 11 || c.toNat = 12

/-- Drop a trailing run of characters satisfying `p` (used for the right half
of Python's strip operations). -/
def dropTrailing (p : Char → Bool) (l : List Char) : List Char :=
  (l.reverse.dropWhile p).reverse

/-- Python `str.strip()` on a character list. -/
def pyStrip (l : List Char) : List Char :=
  dropTrailing isWs (l.dropWhile isWs)

/-- Python `str.strip(q)` for a single strip character `q`: removes all
leading and trailing occurrences of `q`. -/
def stripAllChar (q : Char) (l : List Char) : List Char :=
  dropTrailing (· = q) (l.dropWhile (· = q))

/-- ASCII lowercasing, for the case-insensitive regex matches in the source. -/
def lowAscii (c : Char) : Char :=
  if 'A' ≤ c && c ≤ 'Z' then Char.ofNat (c.toNat + 32) else c

/-- Python `str.splitlines()` on ASCII text: split at `\n`, `\r` and `\r\n`,
with no trailing empty line for a terminal line break. -/
def splitLinesAux : List Char → List Char → List (List Char)
  | [], cur => if cur = [] then [] else [cur]
  | '\r' :: '\n' :: rest, cur => cur :: splitLinesAux rest []
  | '\r' :: rest, cur => cur :: splitLinesAux rest []
  | '\n' :: rest, cur => cur :: splitLinesAux rest []
  | c :: rest, cur => splitLinesAux rest (cur ++ [c])

/-- Lines of a text, as `pre_exec_block.splitlines()` produces them. -/
def pyLines (l : List Char) : List (List Char) :=
  splitLinesAux l []

/-- Expect one given character at the head of the input, returning the rest. -/
def expectChar (c : Char) : List Char → Option (List Char)
  | x :: r => if x = c then some r else none
  | [] => none

/-- Match a literal word case-insensitively (the pattern word is given in
lowercase), returning the rest of the input. -/
def expectCI : List Char → List Char → Option (List Char)
  | [], s => some s
  | p :: ps, x :: r => if lowAscii x = p then expectCI ps r else none
  | _ :: _, [] => none

/-- Skip a maximal run of whitespace (a greedy backslash-s-star where no
backtracking can be needed because the following pattern element cannot
match whitespace). -/
def dropWs (l : List Char) : List Char :=
  l.dropWhile isWs

/-- Match an opening tag `<\s*name\s*>` (case-insensitive) at the head of the
input, returning the remainder after `>`. -/
def matchTag (name : List Char) (s : List Char) : Option (List Char) :=
  (expectChar '<' s).bind fun r =>
  (expectCI name (dropWs r)).bind fun r2 =>
  expectChar '>' (dropWs r2)

/-- Match a closing tag `</\s*name\s*>` (case-insensitive) at the head of the
input. -/
def matchCloseTag (name : List Char) (s : List Char) : Option (List Char) :=
  (expectChar '<' s).bind fun r0 =>
  (expectChar '/' r0).bind fun r =>
  (expectCI name (dropWs r)).bind fun r2 =>
  expectChar '>' (dropWs r2)

def thinkName : List Char := String.data "think"

def cmdName : List Char := String.data "command"

/-- Scan for the earliest position where a closing think tag matches (the
lazy `.*?` of the think-stripping regex), returning the remainder after it. -/
def findThinkClose : List Char → Option (List Char)
  | [] => none
  | c :: rest =>
    match matchCloseTag thinkName (c :: rest) with
    | some r => some r
    | none => findThinkClose rest

/-- One pass of `re.sub(r"(?is)<\s*think\s*>.*?</\s*think\s*>", " ", text)`:
at each position, if an opening think tag matches and a closing tag follows,
the whole section is replaced by a single space and scanning resumes after
it; otherwise scanning advances one character.  Each step consumes at least
one input character, so fuel equal to the input length suffices. -/
def stripThinkAux : Nat → List Char → List Char
  | 0, l => l
  | _ + 1, [] => []
  | fuel + 1, c :: rest =>
    match matchTag thinkName (c :: rest) with
    | some afterOpen =>
      match findThinkClose afterOpen with
      | some afterClose => ' ' :: stripThinkAux fuel afterClose
      | none => c :: stripThinkAux fuel rest
    | none => c :: stripThinkAux fuel rest

/-- Removal of think sections from a block, as the first step of
`extract_command`. -/
def stripThink (l : List Char) : List Char :=
  stripThinkAux l.length l

/-- Leading markdown-adornment characters stripped before the tag check:
the class `[\*`_>\s"'()]` of the source's `md_stripped` substitution. -/
def mdLead (c : Char) : Bool :=
  c = '*' || c = '`' || c = '_' || c = '>' || isWs c || c = '"' || c = '\'' ||
  c = '(' || c = ')'

/-- Trailing adornment characters of the same substitution: the class
`[\*`_\s"']` (note: no `>`, `(` or `)`). -/
def mdTrail (c : Char) : Bool :=
  c = '*' || c = '`' || c = '_' || isWs c || c = '"' || c = '\''

/-- The source's markdown-adornment stripping
`re.sub(r"^[\*`_>\s\"'()]+|[\*`_\s\"']+$", "", line)`: remove the maximal
leading run of the first class, then the maximal trailing run of the second
class from what remains. -/
def mdStrip (l : List Char) : List Char :=
  dropTrailing mdTrail (l.dropWhile mdLead)

/-- Characters excluded from the inline capture class `[^`\n<]` of the
same-line command regex. -/
def mslBad (c : Char) : Bool :=
  c = '`' || c = '\n' || c = '<'

/-- Attempt the tail of the same-line regex after the whitespace run has been
fixed: one optional backtick (greedy, with its backtrack) followed by the
lazy capture `([^`\n<]+?)`.  All pattern elements after the capture are
optional, so the lazy capture always succeeds with exactly one character when
it succeeds at all. -/
def mslAttempt : List Char → Option Char
  | '`' :: c :: _ => if mslBad c then none else some c
  | '`' :: [] => none
  | c :: _ => if mslBad c then none else some c
  | [] => none

/-- Backtracking over the greedy `\s*` between the tag and the capture: try
consuming `k` whitespace characters for `k` from the maximal run down to 0. -/
def mslWsBacktrack : Nat → List Char → Option Char
  | 0, s => mslAttempt s
  | k + 1, s =>
    match mslAttempt (s.drop (k + 1)) with
    | some c => some c
    | none => mslWsBacktrack k s

/-- The portion of the same-line regex after a matched `<\s*Command\s*>`. -/
def mslTail (s : List Char) : Option Char :=
  mslWsBacktrack (s.takeWhile isWs).length s

/-- The search `re.search(r"(?i)<\s*Command\s*>\s*`?([^`\n<]+?)`?\s*(?:</\s*Command\s*>)?", line)`:
try every start position left to right; a position matches when the tag
matches there and the tail capture succeeds; the value is `group(1)`, which
is always a single character. -/
def mslSearch : List Char → Option Char
  | [] => none
  | c :: rest =>
    match matchTag cmdName (c :: rest) with
    | some afterTag =>
      match mslTail afterTag with
      | some ch => some ch
      | none => mslSearch rest
    | none => mslSearch rest

/-- The same-line branch of `extract_command`, reaching a returned command:
requires the search to succeed, `group(1).strip()` non-empty, and the result
of stripping double then single quotes non-empty. -/
def inlineCandidate (line : List Char) : Option (List Char) :=
  match mslSearch line with
  | none => none
  | some ch =>
    let g := pyStrip [ch]
    if g = [] then none
    else
      let cand := stripAllChar '\'' (stripAllChar '"' g)
      if cand = [] then none else some cand

/-- Candidate post-processing inside the scan-after-tag loop: remove one
surrounding pair of backticks (with an inner strip), then all surrounding
double quotes, then all surrounding single quotes; succeed only if the
result is non-empty. -/
def cleanupLine (line : List Char) : Option (List Char) :=
  let c1 :=
    if line.head? = some '`' && line.getLast? = some '`' then
      pyStrip (line.drop 1).dropLast
    else line
  let c2 := stripAllChar '\'' (stripAllChar '"' c1)
  if c2 = [] then none else some c2

/-- Does a stripped line start a fenced code block marker? -/
def isFenceLine (line : List Char) : Bool :=
  line.take 3 = ['`', '`', '`']

/-- The scan for the command on the lines after the `<Command>` tag line:
skip blank lines; a fence marker toggles fence mode; inside a fence every
line is a candidate; outside a fence a line whose adornment-stripped form
starts with `<` stops the scan; otherwise the line is a candidate.  The
first candidate surviving cleanup is the command. -/
def scanAfter : List (List Char) → Bool → Option (List Char)
  | [], _ => none
  | raw :: rest, fence =>
    let line := pyStrip raw
    if line = [] then scanAfter rest fence
    else if isFenceLine line then scanAfter rest (!fence)
    else if fence then
      match cleanupLine line with
      | some c => some c
      | none => scanAfter rest fence
    else if (mdStrip line).head? = some '<' then none
    else
      match cleanupLine line with
      | some c => some c
      | none => scanAfter rest fence

/-- Does a line, after adornment stripping, start with the `<Command>` tag
(the source's `re.match(r"(?i)^<\s*Command\s*>", md_stripped)`)? -/
def isCmdTagLine (line : List Char) : Bool :=
  (matchTag cmdName (mdStrip line)).isSome

/-- The top-down scan of `extract_command`: find the first tag line; on it,
try the same-line capture; otherwise scan the following lines for the
command. -/
def findTagAndScan : List (List Char) → Option (List Char)
  | [] => none
  | raw :: rest =>
    let line := pyStrip raw
    if isCmdTagLine line then
      match inlineCandidate line with
      | some c => some c
      | none => scanAfter rest false
    else findTagAndScan rest

/-- The presence check `re.search(r"(?i)<\s*Command\s*>", text)`. -/
def tagSearch : List Char → Bool
  | [] => false
  | c :: rest => (matchTag cmdName (c :: rest)).isSome || tagSearch rest

/-- Leading-noise class `[\s\*\(_\[`>]` of the last-resort inline pattern. -/
def fbLead (c : Char) : Bool :=
  isWs c || c = '*' || c = '(' || c = '_' || c = '[' || c = '`' || c = '>'

/-- Drop one occurrence of a given character if present (an optional literal
in a regex whose skip-alternative cannot succeed when the literal is
present, given what follows). -/
def dropIfChar (c : Char) : List Char → List Char
  | x :: r => if x = c then r else x :: r
  | [] => []

/-- One `:` or `-` (the `[:\-]` of the last-resort pattern). -/
def expectColonDash : List Char → Option (List Char)
  | x :: r => if x = ':' || x = '-' then some r else none
  | [] => none

/-- End-of-line check for the anchored `\s*$` in multiline mode: only
whitespace up to the end of the text or up to the next `\n`. -/
def wsEOL : List Char → Bool
  | [] => true
  | '\n' :: _ => true
  | c :: r => isWs c && wsEOL r

/-- Suffix check after the lazy capture of the last-resort pattern: an
optional backtick, an optional closing parenthesis, then whitespace to the
end of the line. -/
def fbSfx (t : List Char) : Bool :=
  wsEOL (dropIfChar ')' (dropIfChar '`' t))

/-- The lazy capture `([^`\n]+?)` of the last-resort pattern: extend one
character at a time until the suffix check passes. -/
def lazyCapGo (acc : List Char) : List Char → Option (List Char)
  | [] => none
  | c :: rest =>
    if c = '`' || c = '\n' then none
    else if fbSfx rest then some (acc ++ [c])
    else lazyCapGo (acc ++ [c]) rest

/-- The optional backtick before the capture; when the backtick is present
the skip-alternative necessarily fails (the capture class excludes
backticks), so it is consumed. -/
def fbCapture : List Char → Option (List Char)
  | '`' :: rest => lazyCapGo [] rest
  | s => lazyCapGo [] s

/-- Backtracking over the greedy `\s*` before the capture of the last-resort
pattern. -/
def fbWsBacktrack : Nat → List Char → Option (List Char)
  | 0, s => fbCapture s
  | k + 1, s =>
    match fbCapture (s.drop (k + 1)) with
    | some g => some g
    | none => fbWsBacktrack k s

/-- Match the last-resort inline pattern anchored at a line start, returning
`group(1)`. -/
def fbMatchLine (s : List Char) : Option (List Char) :=
  let r0 := s.dropWhile fbLead
  let r1 := dropIfChar '<' r0
  (expectCI cmdName (dropWs r1)).bind fun r3 =>
  let r4 := dropWs (dropIfChar '>' (dropWs r3))
  (expectColonDash r4).bind fun r6 =>
  fbWsBacktrack (r6.takeWhile isWs).length r6

/-- Advance past the next `\n` (the positions where a multiline `^` can
match next). -/
def dropAfterNl : List Char → Option (List Char)
  | [] => none
  | '\n' :: rest => some rest
  | _ :: rest => dropAfterNl rest

/-- The multiline search for the last-resort pattern: try each line start in
order.  Each step consumes at least one character, so fuel equal to the text
length plus one suffices. -/
def fbSearchAux : Nat → List Char → Option (List Char)
  | 0, _ => none
  | fuel + 1, s =>
    match fbMatchLine s with
    | some g => some g
    | none =>
      match dropAfterNl s with
      | some rest => fbSearchAux fuel rest
      | none => none

/-- The full last-resort branch: search the pattern, strip whitespace and
then all surrounding double and single quotes; succeed only on a non-empty
result. -/
def fbResult (t : List Char) : Option (List Char) :=
  match fbSearchAux (t.length + 1) t with
  | none => none
  | some g =>
    let cmd := stripAllChar '\'' (stripAllChar '"' (pyStrip g))
    if cmd = [] then none else some cmd

/-- The command-extraction parser `extract_command` of
src/orchestrator/main.py: strip think sections; scan for a `<Command>` tag
line and extract the command inline or from the following lines; if a tag is
present anywhere but nothing was extracted, fail with the
tag-present-but-malformed error; otherwise try the last-resort inline
pattern; otherwise fail with the no-command error. -/
def extract_command (block : String) : Except String String :=
  let text := stripThink block.data
  match findTagAndScan (pyLines text) with
  | some c => .ok (String.mk c)
  | none =>
    if tagSearch text then .error "No <Command> found in pre-exec block"
    else
      match fbResult text with
      | some cmd => .ok (String.mk cmd)
      | none => .error "No Command found in pre-exec block"

/-! ## Orchestration loop (src/orchestrator/main.py, `main` and helpers)

The proposal source is modelled as the repository's replay driver: a single
first-in-first-out list of text segments shared by `decide()` and
`post_decide()`, each call popping the next segment and returning the empty
string once the list is exhausted.  The sandbox runtime is an oracle mapping
a command to the outcome of its single `subprocess.run` invocation:
completion with captured output, a timeout, or an uncaught exception. -/

/-- Outcome of the one `subprocess.run` call made for a command. -/
inductive ExecOutcome where
  | completed (stdout stderr : String) (returncode : Int) (latency : ℚ)
  | timedOut (latency : ℚ)
  | raises (msg : String)
deriving DecidableEq

/-- The tuple returned by `execute_in_container`. -/
structure ExecResult where
  stdout : String
  stderr : String
  exit_code : Int
  latency_s : ℚ
deriving DecidableEq

/-- The wrapper `execute_in_container`: a completed run passes through the
captured output and exit status; `subprocess.TimeoutExpired` is caught and
mapped to the sentinel result (empty stdout, the fixed timed-out marker,
exit code -1); any other exception propagates. -/
def execute_in_container : ExecOutcome → Except String ExecResult
  | .completed out err code lat => .ok ⟨out, err, code, lat⟩
  | .timedOut lat => .ok ⟨"", "Command timed out", -1, lat⟩
  | .raises msg => .error msg

/-- The helper `update_repeat_guard`: an extracted command equal to the
previous one increments the consecutive-repeat counter, a differing one
resets it to 0; the loop should break once the counter reaches
`max_repeat - 1`. -/
def update_repeat_guard (last_command : Option String) (current_command : String)
    (repeat_count : Int) (max_repeat : Int) : Int × Bool :=
  let rc := if some current_command = last_command then repeat_count + 1 else 0
  (rc, rc ≥ max_repeat - 1)

/-- One record of events.jsonl: a command record, a post record or a guard
record (timestamps are not modelled). -/
inductive Ev where
  | cmd (plan command stdout stderr : String) (exit_code : Int) (latency_s : ℚ)
  | post (text : String)
  | guard (msg : String)
deriving DecidableEq

/-- The guard record's message, as formatted by `log_guard_event`. -/
def guardMsg (command : String) (repeated : Int) : String :=
  "breaking due to repeated command '" ++ command ++ "' seen " ++
    toString repeated ++ " times"

/-- Mutable state of the main loop, together with its observable console and
log output: the step counter and the step numbers announced, the repeat-guard
state, the events written to events.jsonl in order, the commands passed to
the sandbox in order, and the extraction errors reported. -/
structure LoopState where
  step : Int
  announced : List Int
  last_command : Option String
  repeat_count : Int
  events : List Ev
  executed : List String
  errors : List String
deriving DecidableEq

/-- The state at loop entry. -/
def initState : LoopState :=
  ⟨0, [], none, 0, [], [], []⟩

/-- The top of each iteration: `step += 1` and the `Step n` announcement. -/
def bump (st : LoopState) : LoopState :=
  { st with step := st.step + 1, announced := st.announced ++ [st.step + 1] }

/-- The main loop of `main()`: each iteration announces the step, requests a
pre-exec block (breaking on an empty one), extracts the command (reporting
the error and continuing on failure), updates the repeat guard (logging a
guard record and breaking when it trips), executes the command in the
sandbox, logs the command record, and requests and logs a post-exec block.
The second component is the exception carried out of the loop body, if any
(`none` for a normal break). -/
def loopRun (ex : String → ExecOutcome) (max_repeat : Int) :
    List String → LoopState → LoopState × Option String
  | [], st => (bump st, none)
  | pre :: rest, st =>
    let st := bump st
    if pre = "" then (st, none)
    else
      match extract_command pre with
      | .error msg =>
        loopRun ex max_repeat rest { st with errors := st.errors ++ ["Error: " ++ msg] }
      | .ok command =>
        let rg := update_repeat_guard st.last_command command st.repeat_count max_repeat
        let st := { st with repeat_count := rg.1, last_command := some command }
        if rg.2 then
          ({ st with events := st.events ++ [.guard (guardMsg command (rg.1 + 1))] }, none)
        else
          match execute_in_container (ex command) with
          | .error exn => ({ st with executed := st.executed ++ [command] }, some exn)
          | .ok r =>
            let st := { st with
              executed := st.executed ++ [command],
              events := st.events ++
                [.cmd pre command r.stdout r.stderr r.exit_code r.latency_s] }
            match rest with
            | [] => loopRun ex max_repeat [] st
            | post :: rest2 =>
              let st :=
                if post ≠ "" then { st with events := st.events ++ [.post post] } else st
              loopRun ex max_repeat rest2 st

/-- The run's meta.json contents. -/
structure RunMeta where
  container : String
  mode : String
  prompt : String
  started_at : String
  ended_at : Option String
deriving DecidableEq

/-- Result of a whole run: the finalized meta, the final loop state, whether
the event log was closed, and the exception from the loop body if it exited
abnormally. -/
structure RunResult where
  meta : RunMeta
  final : LoopState
  events_closed : Bool
  exn : Option String
deriving DecidableEq

/-- The body of `main()` around the loop: write the initial meta with a null
`ended_at`, run the loop, and — in a `finally` block, so on normal and
abnormal exit alike — rewrite the meta with `ended_at` set and close the
event log. -/
def runMain (container mode prompt started_at ended_at : String)
    (ex : String → ExecOutcome) (max_repeat : Int) (segs : List String) : RunResult :=
  let meta0 : RunMeta := ⟨container, mode, prompt, started_at, none⟩
  let r := loopRun ex max_repeat segs initState
  ⟨{ meta0 with ended_at := some ended_at }, r.1, true, r.2⟩

example : extract_command "<Command>\nls -la / /world /home/agent" = .ok "ls -la / /world /home/agent" := rfl
example : extract_command "**<Command>**\nls -la" = .ok "*" := rfl
example : extract_command "<Command> echo hi" = .ok "e" := rfl
example : extract_command "<Intent>\n...\n\n<Command>\n\n<Expected>\n...\n<OnError>\n..." = .error "No <Command> found in pre-exec block" := rfl
example : extract_command "Command: echo hi" = .ok "echo hi" := rfl
example : extract_command "(Command: echo hi)" = .ok "echo hi" := rfl
example : extract_command "nothing here" = .error "No Command found in pre-exec block" := rfl
example : extract_command "<Command>\n```bash\nls -la\n```" = .ok "ls -la" := rfl
example : extract_command "<Command>\n\"\"ls\"\"" = .ok "ls" := rfl
example : extract_command "<think>Command: hidden</think>\nCommand: real" = .ok "real" := rfl
example : stripThink (String.data "a<THINK>x</think>b<think>y</tHiNk>c") = String.data "a b c" := rfl
example : stripThink (String.data "<think>no close") = String.data "<think>no close" := rfl

def exPre : String := "<Intent>\nMap\n\n<Command>\nls -la\n\n<Expected>\nok"
def exPost : String := "<Observation>\nfine"
def exOk : String → ExecOutcome := fun _ => .completed "OK" "" 0 (1/10)

example : extract_command exPre = .ok "ls -la" := rfl
example :
    (loopRun exOk 3 [exPre, exPost] initState).1.events =
      [.cmd exPre "ls -la" "OK" "" 0 (1/10), .post exPost] := rfl
example : (loopRun exOk 3 [exPre, exPost, exPre, exPost, exPre, exPre] initState).1.executed = ["ls -la", "ls -la"] := rfl
example :
    (loopRun exOk 3 [exPre, exPost, exPre, exPost, exPre, exPre] initState).1.events =
      [.cmd exPre "ls -la" "OK" "" 0 (1/10), .post exPost,
       .cmd exPre "ls -la" "OK" "" 0 (1/10), .post exPost,
       .guard "breaking due to repeated command 'ls -la' seen 3 times"] := rfl
example : (loopRun exOk 3 ["nonsense", exPre] initState).1.announced = [1, 2, 3] := rfl
example : (loopRun exOk 3 ["nonsense", exPre] initState).1.errors = ["Error: No Command found in pre-exec block"] := rfl
example : (loopRun exOk 1 [exPre] initState).1.executed = [] := rfl
example : (loopRun exOk 1 [exPre] initState).1.events = [.guard "breaking due to repeated command 'ls -la' seen 1 times"] := rfl

/-! ## Scorer (src/scoring/scorer.py, `compute_metrics`)

Python floats are modelled as exact rationals together with explicit
nan/infinity markers for the values `float(...)` can produce from strings;
JSON numbers themselves are modelled as (finite) rationals. -/

/-- A Python float value as the scorer can observe one: finite, one of the
two infinities, or nan. -/
inductive PyNum where
  | fin (q : ℚ)
  | inf
  | ninf
  | nan
deriving DecidableEq

def isDigit (c : Char) : Bool := '0' ≤ c && c ≤ '9'

def natOfDigits (l : List Char) : Nat :=
  l.foldl (fun a c => a * 10 + (c.toNat - 48)) 0

def lowerAll (l : List Char) : List Char := l.map lowAscii

/-- Parse the digits / fraction / exponent part of a Python float literal
(scoped to plain decimal literals: digit-group underscores are not
modelled).  Requires at least one mantissa digit and, after an exponent
marker, at least one exponent digit, with nothing left over. -/
def parseDecimal (t : List Char) : Option ℚ :=
  let ip := t.takeWhile isDigit
  let r1 := t.drop ip.length
  let fp := if r1.head? = some '.' then (r1.drop 1).takeWhile isDigit else []
  let r2 := if r1.head? = some '.' then (r1.drop 1).drop fp.length else r1
  if ip = [] && fp = [] then none
  else
    let mant : ℚ := (natOfDigits ip : ℚ) + (natOfDigits fp : ℚ) / (10 : ℚ) ^ fp.length
    match r2 with
    | [] => some mant
    | e :: r3 =>
      if e = 'e' || e = 'E' then
        let neg := r3.head? = some '-'
        let r4 := if r3.head? = some '-' || r3.head? = some '+' then r3.drop 1 else r3
        let ds := r4.takeWhile isDigit
        if ds = [] || r4.drop ds.length ≠ [] then none
        else
          let ex := natOfDigits ds
          some (if neg then mant / (10 : ℚ) ^ ex else mant * (10 : ℚ) ^ ex)
      else none

/-- The unsigned part of Python's `float(str)`: the special words `inf`,
`infinity` and `nan` (case-insensitive) or a decimal literal. -/
def pyFloatUnsigned (t : List Char) : Option PyNum :=
  if lowerAll t = String.data "inf" || lowerAll t = String.data "infinity" then some .inf
  else if lowerAll t = String.data "nan" then some .nan
  else (parseDecimal t).map .fin

/-- Python's `float(str)`: strip whitespace, handle an optional sign, then
parse the unsigned part; `none` models the `ValueError` raised on anything
unparseable. -/
def pyFloat (s : List Char) : Option PyNum :=
  match pyStrip s with
  | '-' :: t =>
    (pyFloatUnsigned t).map fun p =>
      match p with
      | .fin q => .fin (-q)
      | .inf => .ninf
      | .ninf => .ninf
      | .nan => .nan
  | '+' :: t => pyFloatUnsigned t
  | t => pyFloatUnsigned t

/-- Comparison used for sorting latency values (total on the nan-free lists
the scorer sorts). -/
def pyLe : PyNum → PyNum → Bool
  | .ninf, _ => true
  | _, .inf => true
  | .fin a, .fin b => a ≤ b
  | .inf, _ => false
  | _, .ninf => false
  | .nan, _ => true
  | _, .nan => false

/-- Python float addition on the modelled values. -/
def pyAdd : PyNum → PyNum → PyNum
  | .nan, _ => .nan
  | _, .nan => .nan
  | .inf, .ninf => .nan
  | .ninf, .inf => .nan
  | .inf, _ => .inf
  | _, .inf => .inf
  | .ninf, _ => .ninf
  | _, .ninf => .ninf
  | .fin a, .fin b => .fin (a + b)

/-- Halving, for the even-length median. -/
def pyHalf : PyNum → PyNum
  | .fin a => .fin (a / 2)
  | x => x

/-- Insert into a sorted list (sorting as Python's `sorted` orders the
values). -/
def insSorted (le : α → α → Bool) (x : α) : List α → List α
  | [] => [x]
  | y :: r => if le x y then x :: y :: r else y :: insSorted le x r

def iSort (le : α → α → Bool) (l : List α) : List α :=
  l.foldr (insSorted le) []

/-- `statistics.median`: sort; for odd length take the middle element, for
even length average the two middle elements. -/
def pyMedian (l : List PyNum) : PyNum :=
  let s := iSort pyLe l
  let n := s.length
  if n % 2 = 1 then (s.get? (n / 2)).getD (.fin 0)
  else pyHalf (pyAdd ((s.get? (n / 2 - 1)).getD (.fin 0)) ((s.get? (n / 2)).getD (.fin 0)))

/-- Lexicographic (codepoint) order on character lists, as Python compares
strings. -/
def chLe : List Char → List Char → Bool
  | [], _ => true
  | _ :: _, [] => false
  | x :: xs, y :: ys => if x = y then chLe xs ys else decide (x < y)

def strLe (a b : String) : Bool := chLe a.data b.data

def iSortStr (l : List String) : List String := iSort strLe l

/-- A JSON value in an `exit_code` field, as `e.get("exit_code") == 0`
distinguishes them: an integer, a float, a boolean, or anything else. -/
inductive XVal where
  | i (n : Int)
  | q (v : ℚ)
  | b (v : Bool)
  | other
deriving DecidableEq

/-- A JSON value in a `latency_s` field, as the latency comprehension
distinguishes them: a number (int or float), a string, a boolean, or
anything else (including null). -/
inductive LVal where
  | num (v : ℚ)
  | str (s : String)
  | b (v : Bool)
  | other
deriving DecidableEq

/-- An event record as the scorer reads it: for each field, `none` means the
key is absent, `some none` (for text fields) a null value. -/
structure SEvent where
  command : Option (Option String)
  stdout : Option (Option String)
  exit_code : Option XVal
  latency_s : Option LVal
deriving DecidableEq

/-- The `"command" in e` test selecting command events. -/
def isCommandEvent (e : SEvent) : Bool := e.command.isSome

/-- `e.get("command", "") or ""`. -/
def cmdTextOf (e : SEvent) : String :=
  match e.command with
  | some (some s) => s
  | _ => ""

/-- `e.get("stdout", "") or ""`. -/
def outTextOf (e : SEvent) : String :=
  match e.stdout with
  | some (some s) => s
  | _ => ""

/-- `e.get("exit_code") == 0`: Python equality of the value with the int 0
(true for 0, 0.0 and False; false for absent keys and everything else). -/
def exitZero (e : SEvent) : Bool :=
  match e.exit_code with
  | some (.i n) => n = 0
  | some (.q v) => v = 0
  | some (.b v) => v = false
  | _ => false

/-- The filter of the first latency comprehension:
`isinstance(v, (int, float, str)) and str(v).strip()` (booleans are ints in
Python; `str` of a number or boolean is never blank). -/
def latKeep : LVal → Bool
  | .num _ => true
  | .b _ => true
  | .str s => !(pyStrip s.data).isEmpty
  | .other => false

/-- `float(v)` applied to a kept latency value; a string that does not parse
is the `ValueError` the comprehension raises. -/
def latFloat : LVal → Except String PyNum
  | .num v => .ok (.fin v)
  | .b v => .ok (.fin (if v then 1 else 0))
  | .str s =>
    match pyFloat s.data with
    | some p => .ok p
    | none => .error ("could not convert string to float: '" ++ s ++ "'")
  | .other => .error "unsupported operand"

/-- The first latency comprehension over the command events, evaluated left
to right, propagating the first conversion error. -/
def latencies1 : List SEvent → Except String (List PyNum)
  | [] => .ok []
  | e :: rest =>
    match e.latency_s with
    | some v =>
      if latKeep v then
        match latFloat v with
        | .error m => .error m
        | .ok p => (latencies1 rest).map (p :: ·)
      else latencies1 rest
    | none => latencies1 rest

/-- Match a case-sensitive literal at the head of the input. -/
def expectLit : List Char → List Char → Option (List Char)
  | [], s => some s
  | p :: ps, x :: r => if x = p then expectLit ps r else none
  | _ :: _, [] => none

def toolsLit : List Char := String.data "/home/agent/tools/"

/-- Match `TOOLS_REGEX = /home/agent/tools/[^\s]+` at the current position:
the literal prefix followed by a maximal non-empty run of non-whitespace. -/
def toolsMatchAt (s : List Char) : Option (List Char × List Char) :=
  (expectLit toolsLit s).bind fun r =>
    let run := r.takeWhile (fun c => !isWs c)
    if run = [] then none
    else some (toolsLit ++ run, r.drop run.length)

/-- Characters of a path segment in `PATH_REGEX`: the class
`[A-Za-z0-9._\-]`. -/
def isPathChar (c : Char) : Bool :=
  ('A' ≤ c && c ≤ 'Z') || ('a' ≤ c && c ≤ 'z') || isDigit c ||
  c = '.' || c = '_' || c = '-'

/-- Greedy `(?:/[A-Za-z0-9._\-]+)+` tail: consume as many `/segment` groups
as possible; each group consumes at least two characters, so fuel equal to
the input length suffices. -/
def pathSegs : Nat → List Char → List Char × List Char
  | 0, s => ([], s)
  | fuel + 1, s =>
    match s with
    | '/' :: r =>
      let run := r.takeWhile isPathChar
      if run = [] then ([], s)
      else
        let m := pathSegs fuel (r.drop run.length)
        ('/' :: (run ++ m.1), m.2)
    | _ => ([], s)

/-- Match `PATH_REGEX = /(?:home/agent|world)(?:/[A-Za-z0-9._\-]+)+` at the
current position (the two literal alternatives cannot match at the same
position, so alternation order is immaterial). -/
def pathMatchAt (s : List Char) : Option (List Char × List Char) :=
  let base :=
    match expectLit (String.data "/home/agent") s with
    | some r => some (String.data "/home/agent", r)
    | none =>
      match expectLit (String.data "/world") s with
      | some r => some (String.data "/world", r)
      | none => none
  base.bind fun br =>
    let m := pathSegs br.2.length br.2
    if m.1 = [] then none else some (br.1 ++ m.1, m.2)

/-- `re.findall`: scan left to right, emitting non-overlapping matches and
resuming after each match (every match consumes at least one character, so
fuel equal to the input length suffices). -/
def findallAux (matchAt : List Char → Option (List Char × List Char)) :
    Nat → List Char → List (List Char)
  | 0, _ => []
  | _ + 1, [] => []
  | fuel + 1, c :: cs =>
    match matchAt (c :: cs) with
    | some m => m.1 :: findallAux matchAt fuel m.2
    | none => findallAux matchAt fuel cs

def toolsFindall (s : String) : List String :=
  (findallAux toolsMatchAt s.data.length s.data).map String.mk

def pathFindall (s : String) : List String :=
  (findallAux pathMatchAt s.data.length s.data).map String.mk

/-- The metrics object returned by the scorer. -/
structure Metrics where
  coverage_files : Nat
  efficiency_success_rate : ℚ
  latency_median_s : PyNum
  tools_count : Nat
  tools : List String
  steps : Nat
deriving DecidableEq

/-- The scorer's `compute_metrics`: steps is the number of command events;
the success rate is the fraction with exit code 0 (0.0 with no command
events); the latency median is `statistics.median` over the converted
latency values with the `"nan"` strings filtered out (0.0 if none), where an
unparseable non-blank latency string raises; coverage counts distinct
`PATH_REGEX` matches in stdout; tools is the sorted set of `TOOLS_REGEX`
matches in command text or stdout. -/
def compute_metrics (events : List SEvent) : Except String Metrics :=
  let ce := events.filter isCommandEvent
  let steps := ce.length
  let eff : ℚ := if steps > 0 then ((ce.countP exitZero : ℚ) / (steps : ℚ)) else 0
  match latencies1 ce with
  | .error m => .error m
  | .ok l1 =>
    let l2 := l1.filter (fun p => !(p == PyNum.nan))
    let med := if l2.isEmpty then PyNum.fin 0 else pyMedian l2
    let coverage := ((ce.map (fun e => pathFindall (outTextOf e))).flatten.eraseDups).length
    let toolsList :=
      iSortStr ((ce.map (fun e => toolsFindall (cmdTextOf e) ++ toolsFindall (outTextOf e))).flatten.eraseDups)
    .ok ⟨coverage, eff, med, toolsList.length, toolsList, steps⟩

/-- The rational 1/10 in normalized constructor form (0.1 seconds). -/
def q110 : ℚ := ⟨1, 10, by decide, by decide⟩

/-- The rational 3/10 in normalized constructor form (0.3 seconds). -/
def q310 : ℚ := ⟨3, 10, by decide, by decide⟩

/-- The rational 1/5 in normalized constructor form (0.2 seconds). -/
def q15 : ℚ := ⟨1, 5, by decide, by decide⟩

def testEv1 : SEvent :=
  ⟨some (some "ls -la / /world /home/agent"),
   some (some "/world/data.csv\n/home/agent/tools/parse_csv.sh\n"),
   some (.i 0), some (.num q110)⟩

def testEvPost : SEvent := ⟨none, none, none, none⟩

def testEv2 : SEvent :=
  ⟨some (some "/home/agent/tools/parse_csv.sh /world/data.csv"),
   some (some "parsed 4 rows"), some (.i 0), some (.num q310)⟩

def testEv3 : SEvent :=
  ⟨some (some "/home/agent/tools/parse_csv.sh /world/data.csv"),
   some (some "parsed 4 rows again"), some (.i 0), some (.num q15)⟩

example :
    compute_metrics [testEv1, testEvPost, testEv2, testEv3] =
      .ok ⟨2, 1, .fin q15, 1, ["/home/agent/tools/parse_csv.sh"], 3⟩ := by
  have h1 :
      compute_metrics [testEv1, testEvPost, testEv2, testEv3] =
        .ok ⟨2, ((3 : ℕ) : ℚ) / ((3 : ℕ) : ℚ), .fin q15, 1,
          ["/home/agent/tools/parse_csv.sh"], 3⟩ := rfl
  rw [h1]
  norm_num

example :
    compute_metrics [⟨some (some "x"), some (some ""), some (.i 0), some (.str "abc")⟩] =
      .error "could not convert string to float: 'abc'" := rfl

/-! ## Helper lemmas about the extractor -/

/-- A candidate surviving cleanup is non-empty. -/
lemma cleanupLine_ne_nil {l c : List Char} (h : cleanupLine l = some c) : c ≠ [] := by
  intro hc
  subst hc
  simp only [cleanupLine] at h
  split at h
  all_goals split at h
  all_goals simp_all

/-- An inline candidate returned from the tag line is non-empty. -/
lemma inlineCandidate_ne_nil {l c : List Char} (h : inlineCandidate l = some c) : c ≠ [] := by
  intro hc
  subst hc
  simp only [inlineCandidate] at h
  split at h
  · exact absurd h (by simp)
  · split at h
    all_goals try split at h
    all_goals simp_all

/-- Any command found by the scan after the tag line is non-empty. -/
lemma scanAfter_ne_nil {c : List Char} :
    ∀ (L : List (List Char)) (f : Bool), scanAfter L f = some c → c ≠ [] := by
  intro L
  induction L with
  | nil => intro f h; simp [scanAfter] at h
  | cons raw rest ih =>
    intro f h
    simp only [scanAfter] at h
    split at h
    · exact ih _ h
    · split at h
      · exact ih _ h
      · split at h
        · split at h
          · rename_i x heq
            injection h with h2
            exact h2 ▸ cleanupLine_ne_nil heq
          · exact ih _ h
        · split at h
          · exact absurd h (by simp)
          · split at h
            · rename_i x heq
              injection h with h2
              exact h2 ▸ cleanupLine_ne_nil heq
            · exact ih _ h

/-- Any command produced by the tag scan is non-empty. -/
lemma findTagAndScan_ne_nil {c : List Char} :
    ∀ L : List (List Char), findTagAndScan L = some c → c ≠ [] := by
  intro L
  induction L with
  | nil => intro h; simp [findTagAndScan] at h
  | cons raw rest ih =>
    intro h
    simp only [findTagAndScan] at h
    split at h
    · split at h
      · rename_i x heq
        injection h with h2
        exact h2 ▸ inlineCandidate_ne_nil heq
      · exact scanAfter_ne_nil _ _ h
    · exact ih h

/-- Blank lines after the tag line are skipped by the scan. -/
lemma scanAfter_skips_blanks :
    ∀ (blanks L : List (List Char)) (f : Bool), (∀ b ∈ blanks, pyStrip b = []) →
      scanAfter (blanks ++ L) f = scanAfter L f := by
  intro blanks
  induction blanks with
  | nil => intro L f _; rfl
  | cons b bl ih =>
    intro L f hb
    have hbb : pyStrip b = [] := hb b (List.mem_cons_self b bl)
    simp only [List.cons_append, scanAfter, hbb, if_pos]
    exact ih L f fun x hx => hb x (List.mem_cons_of_mem _ hx)

/-- Lines that do not carry a `<Command>` tag are skipped by the top-down
scan for the tag line. -/
lemma findTagAndScan_skips_nontag :
    ∀ (before L : List (List Char)), (∀ b ∈ before, isCmdTagLine (pyStrip b) = false) →
      findTagAndScan (before ++ L) = findTagAndScan L := by
  intro before
  induction before with
  | nil => intro L _; rfl
  | cons b bl ih =>
    intro L hb
    have hbb : isCmdTagLine (pyStrip b) = false := hb b (List.mem_cons_self b bl)
    simp only [List.cons_append, findTagAndScan, hbb, Bool.false_eq_true, if_false]
    exact ih L fun x hx => hb x (List.mem_cons_of_mem _ hx)

/-! ## Claim C1 -/

/-- C1 counterexample: three violations of the claim as stated, one per
adjustment the amendment makes.  First, a `<Command>` tag line wrapped in
asterisks (one of the adornments the claim allows) makes the same-line
capture fire on the trailing adornment, so `extract_command` returns `*`
instead of the command on the following line.  Second, quote stripping
removes every surrounding double-quote layer, not one: the doubly quoted
command comes back with no quotes at all.  Third, a command line that begins
with a triple backtick is consumed as a fence marker rather than returned. -/
theorem c1_counterexample :
    (extract_command "**<Command>**\nls -la" = .ok "*" ∧ ("*" : String) ≠ "ls -la") ∧
    (extract_command "<Command>\n\"\"ls\"\"" = .ok "ls" ∧ ("ls" : String) ≠ "\"ls\"") ∧
    extract_command "<Command>\n```ls```" = .error "No <Command> found in pre-exec block" :=
  ⟨⟨rfl, by decide⟩, ⟨rfl, by decide⟩, rfl⟩

/-- C1 (amended): in every block whose first `<Command>` tag line (wherever
it stands, after any lines carrying no tag) yields no same-line candidate
(for example a bare tag, or one wrapped only in leading adornments or in
backticks or double quotes — but not one with trailing asterisks, underscores
or parentheses), and is followed by zero or more blank lines and then a
non-blank line that is not a fence marker and does not start a tag after
adornment stripping, `extract_command` returns that line trimmed, with one
surrounding pair of backticks (with an inner trim) and then all surrounding
double quotes and then all surrounding single quotes stripped, provided that
result is non-empty. -/
theorem c1_amended (block : String) (tagLine cmdLine : List Char)
    (before blanks rest : List (List Char)) (c : List Char)
    (hsplit : pyLines (stripThink block.data) =
      before ++ tagLine :: (blanks ++ cmdLine :: rest))
    (hbefore : ∀ b ∈ before, isCmdTagLine (pyStrip b) = false)
    (hblank : ∀ b ∈ blanks, pyStrip b = [])
    (htag : isCmdTagLine (pyStrip tagLine) = true)
    (hnoinline : inlineCandidate (pyStrip tagLine) = none)
    (hne : pyStrip cmdLine ≠ [])
    (hnofence : isFenceLine (pyStrip cmdLine) = false)
    (hnotag : (mdStrip (pyStrip cmdLine)).head? ≠ some '<')
    (hclean : cleanupLine (pyStrip cmdLine) = some c) :
    extract_command block = .ok (String.mk c) := by
  have hscan : findTagAndScan (pyLines (stripThink block.data)) = some c := by
    rw [hsplit, findTagAndScan_skips_nontag before _ hbefore]
    simp only [findTagAndScan, htag, if_true, hnoinline]
    rw [scanAfter_skips_blanks blanks _ false hblank]
    simp only [scanAfter, hne, hnofence, hnotag, hclean]
    simp [hne, hnofence, hnotag]
  simp only [extract_command, hscan]

/-- C1 witness: the canonical Intent-first block, instantiating the amended
claim with the tag line in the middle of the block. -/
theorem c1_amended_witness :
    extract_command "<Intent>\nMap\n\n<Command>\n\nls -la\n\n<Expected>\nok" =
      .ok "ls -la" :=
  c1_amended "<Intent>\nMap\n\n<Command>\n\nls -la\n\n<Expected>\nok"
    (String.data "<Command>") (String.data "ls -la")
    [String.data "<Intent>", String.data "Map", []] [[]]
    [[], String.data "<Expected>", String.data "ok"] (String.data "ls -la")
    rfl (by decide) (by decide) rfl rfl (by decide) rfl (by decide) rfl

/-! ## Claim C2 -/

/-- C2 (confirmed): once a `<Command>` tag is present in the (think-stripped)
block, `extract_command` either returns the non-empty command produced by the
tag scan or fails with the tag-present-but-malformed error; it never falls
through to the loose inline pattern and never returns an empty string. -/
theorem c2_malformed_no_fallthrough (block : String)
    (h : tagSearch (stripThink block.data) = true) :
    (findTagAndScan (pyLines (stripThink block.data)) = none →
        extract_command block = .error "No <Command> found in pre-exec block") ∧
    ∀ cmd : String, extract_command block = .ok cmd →
        findTagAndScan (pyLines (stripThink block.data)) = some cmd.data ∧ cmd ≠ "" := by
  constructor
  · intro hnone
    simp [extract_command, hnone, h]
  · intro cmd hok
    cases hfind : findTagAndScan (pyLines (stripThink block.data)) with
    | some d =>
      have hext : extract_command block = .ok (String.mk d) := by
        simp [extract_command, hfind]
      rw [hok] at hext
      injection hext with h2
      have hd : cmd.data = d := by rw [h2]
      refine ⟨by rw [hd], ?_⟩
      intro hempty
      have hdd : d = [] := by
        rw [← hd, hempty]
      exact findTagAndScan_ne_nil _ hfind hdd
    | none =>
      have hext : extract_command block = .error "No <Command> found in pre-exec block" := by
        simp [extract_command, hfind, h]
      rw [hok] at hext
      exact absurd hext (by simp)

/-- C2 witness: a tag followed only by a blank line and then another tag. -/
theorem c2_witness :
    extract_command "<Command>\n\n<Expected>\nfoo" =
      .error "No <Command> found in pre-exec block" :=
  (c2_malformed_no_fallthrough "<Command>\n\n<Expected>\nfoo" rfl).1 rfl

/-! ## Claim C5 -/

/-- C5: the same-line capture after an inline `<Command>` tag is a lazy match
whose trailing pattern elements are all optional, so it returns only the
first character of the inline text, not the full command (contradicting the
source's own comment "Support same-line command after the tag"). -/
theorem c5_inline_returns_first_char :
    extract_command "<Command> echo hi" = .ok "e" ∧
    extract_command "<Command>echo hi</Command>" = .ok "e" ∧
    extract_command "<Command> `echo hi`" = .ok "e" :=
  ⟨rfl, rfl, rfl⟩

/-! ## Claim C6 -/

/-- C6 (confirmed): after the tag line, the scan stops at the first
non-blank, non-fence line whose adornment-stripped form starts with `<`,
regardless of the lines that follow; on the block
`<Command>\nls -la\n<Expected>\nfoo` extraction returns `ls -la`. -/
theorem c6_scan_stops_at_tag :
    (∀ (raw : List Char) (rest : List (List Char)),
        pyStrip raw ≠ [] → isFenceLine (pyStrip raw) = false →
        (mdStrip (pyStrip raw)).head? = some '<' →
        scanAfter (raw :: rest) false = none) ∧
    extract_command "<Command>\nls -la\n<Expected>\nfoo" = .ok "ls -la" := by
  constructor
  · intro raw rest h1 h2 h3
    simp [scanAfter, h1, h2, h3]
  · rfl

/-- C6 witness: the `<Expected>` line stops the scan whatever follows it. -/
theorem c6_scan_stops_witness :
    scanAfter (String.data "<Expected>" :: [String.data "foo"]) false = none :=
  c6_scan_stops_at_tag.1 (String.data "<Expected>") [String.data "foo"]
    (by decide) rfl rfl

/-! ## Claim C3 -/

/-- C3 (confirmed): the repeat guard increments the counter on an equal
command and resets it to 0 on a differing one; the break flag is exactly
counter at or above `max_repeat - 1`; with `max_repeat = 3` and a source
proposing the same command three times (with reflections in between), the
loop executes it twice, then logs a guard record naming the command and the
count 3 and terminates without a third execution — even with further
proposals pending. -/
theorem c3_repeat_guard_semantics :
    (∀ (last : Option String) (c : String) (rc m : Int),
        (update_repeat_guard last c rc m).1 = if some c = last then rc + 1 else 0) ∧
    (∀ (last : Option String) (c : String) (rc m : Int),
        ((update_repeat_guard last c rc m).2 = true ↔
          (update_repeat_guard last c rc m).1 ≥ m - 1)) ∧
    ((loopRun exOk 3 [exPre, exPost, exPre, exPost, exPre, exPre] initState).1.executed =
        ["ls -la", "ls -la"] ∧
     (loopRun exOk 3 [exPre, exPost, exPre, exPost, exPre, exPre] initState).1.events =
        [.cmd exPre "ls -la" "OK" "" 0 (1/10), .post exPost,
         .cmd exPre "ls -la" "OK" "" 0 (1/10), .post exPost,
         .guard (guardMsg "ls -la" 3)]) := by
  exact ⟨fun last c rc m => rfl, fun last c rc m => decide_eq_true_iff, rfl, rfl⟩

/-- C3 witness: an equal command increments the counter. -/
theorem c3_witness :
    (update_repeat_guard (some "ls -la") "ls -la" 1 3).1 =
      if some "ls -la" = (some "ls -la" : Option String) then 1 + 1 else 0 :=
  c3_repeat_guard_semantics.1 (some "ls -la") "ls -la" 1 3

/-! ## Claim C4 -/

/-- C4 counterexample: after a failed extraction at step 1, the loop
re-enters proposal retrieval at step 2 — the step counter is incremented
(announcements are 1, 2, 3, not 1, 1, 2) — while the error is reported and
the next proposal is still processed. -/
theorem c4_counterexample :
    (loopRun exOk 3 ["nonsense", exPre] initState).1.announced = [1, 2, 3] ∧
    (loopRun exOk 3 ["nonsense", exPre] initState).1.errors =
      ["Error: No Command found in pre-exec block"] ∧
    (loopRun exOk 3 ["nonsense", exPre] initState).1.executed = ["ls -la"] :=
  ⟨rfl, rfl, rfl⟩

/-- C4 (amended): an iteration whose extraction fails logs no event, executes
no command, leaves the repeat-guard state (`last_command` and the
consecutive-repeat counter) unchanged, reports the error, and re-enters
proposal retrieval for the next iteration with the step counter incremented
(the counter increments at the top of every iteration, failed extraction
included). -/
theorem c4_amended (ex : String → ExecOutcome) (m : Int) (pre : String)
    (rest : List String) (st : LoopState) (msg : String)
    (hpre : pre ≠ "") (herr : extract_command pre = .error msg) :
    loopRun ex m (pre :: rest) st =
      loopRun ex m rest
        ⟨st.step + 1, st.announced ++ [st.step + 1], st.last_command, st.repeat_count,
         st.events, st.executed, st.errors ++ ["Error: " ++ msg]⟩ := by
  simp only [loopRun, bump, hpre, herr]
  rfl

/-- C4 witness: the frame equation at a concrete unparseable proposal. -/
theorem c4_amended_witness :
    loopRun exOk 3 ["nonsense"] initState =
      loopRun exOk 3 []
        ⟨initState.step + 1, initState.announced ++ [initState.step + 1],
         initState.last_command, initState.repeat_count, initState.events,
         initState.executed,
         initState.errors ++ ["Error: " ++ "No Command found in pre-exec block"]⟩ :=
  c4_amended exOk 3 "nonsense" [] initState "No Command found in pre-exec block"
    (by decide) rfl

/-! ## Claim C7 -/

/-- Is an event a command record? -/
def isCmdEv : Ev → Bool
  | .cmd _ _ _ _ _ _ => true
  | _ => false

/-- Number of command records in an event list. -/
def countCmd (l : List Ev) : Nat := l.countP isCmdEv

/-- The sandbox oracle for a run in which every command times out. -/
def exTO : String → ExecOutcome := fun _ => .timedOut 5

def exPre2 : String := "<Command>\npwd"

/-- Unfolding: an exhausted proposal stream ends the loop at once. -/
lemma loopRun_nil (ex : String → ExecOutcome) (m : Int) (st : LoopState) :
    loopRun ex m [] st = (bump st, none) := rfl

/-- Unfolding: an empty proposal ends the loop at once. -/
lemma loopRun_empty (ex : String → ExecOutcome) (m : Int) (rest : List String)
    (st : LoopState) : loopRun ex m ("" :: rest) st = (bump st, none) := by
  simp [loopRun]

/-- Unfolding: an iteration with a failed extraction only announces the step
and records the error. -/
lemma loopRun_error (ex : String → ExecOutcome) (m : Int) (pre : String)
    (rest : List String) (st : LoopState) (msg : String)
    (hpre : pre ≠ "") (hex : extract_command pre = .error msg) :
    loopRun ex m (pre :: rest) st =
      loopRun ex m rest
        ⟨st.step + 1, st.announced ++ [st.step + 1], st.last_command, st.repeat_count,
         st.events, st.executed, st.errors ++ ["Error: " ++ msg]⟩ := by
  simp only [loopRun, bump, hpre, hex]
  rfl

/-- Unfolding: an iteration on which the repeat guard trips logs the guard
record and terminates. -/
lemma loopRun_guard (ex : String → ExecOutcome) (m : Int) (pre : String)
    (rest : List String) (st : LoopState) (command : String)
    (hpre : pre ≠ "") (hex : extract_command pre = .ok command)
    (hbrk : (update_repeat_guard st.last_command command st.repeat_count m).2 = true) :
    loopRun ex m (pre :: rest) st =
      (⟨st.step + 1, st.announced ++ [st.step + 1], some command,
        (update_repeat_guard st.last_command command st.repeat_count m).1,
        st.events ++
          [.guard (guardMsg command
            ((update_repeat_guard st.last_command command st.repeat_count m).1 + 1))],
        st.executed, st.errors⟩, none) := by
  simp only [loopRun, bump, hpre, hex, hbrk]
  rfl

/-- Unfolding: an executing iteration on the last proposal logs the command
record, fails to obtain a reflection, and ends on the next (empty) decide. -/
lemma loopRun_exec_nil (ex : String → ExecOutcome) (m : Int) (pre : String)
    (st : LoopState) (command : String) (r : ExecResult)
    (hpre : pre ≠ "") (hex : extract_command pre = .ok command)
    (hbrk : (update_repeat_guard st.last_command command st.repeat_count m).2 = false)
    (hexec : execute_in_container (ex command) = .ok r) :
    loopRun ex m [pre] st =
      loopRun ex m []
        ⟨st.step + 1, st.announced ++ [st.step + 1], some command,
         (update_repeat_guard st.last_command command st.repeat_count m).1,
         st.events ++ [.cmd pre command r.stdout r.stderr r.exit_code r.latency_s],
         st.executed ++ [command], st.errors⟩ := by
  simp only [loopRun, bump, hpre, hex, hbrk, hexec]
  rfl

/-- Unfolding: an executing iteration followed by a reflection segment logs
the command record, then the post record when the reflection is non-empty,
and continues. -/
lemma loopRun_exec_cons (ex : String → ExecOutcome) (m : Int) (pre post : String)
    (rest2 : List String) (st : LoopState) (command : String) (r : ExecResult)
    (hpre : pre ≠ "") (hex : extract_command pre = .ok command)
    (hbrk : (update_repeat_guard st.last_command command st.repeat_count m).2 = false)
    (hexec : execute_in_container (ex command) = .ok r) :
    loopRun ex m (pre :: post :: rest2) st =
      loopRun ex m rest2
        ⟨st.step + 1, st.announced ++ [st.step + 1], some command,
         (update_repeat_guard st.last_command command st.repeat_count m).1,
         (st.events ++ [.cmd pre command r.stdout r.stderr r.exit_code r.latency_s]) ++
           (if post = "" then [] else [.post post]),
         st.executed ++ [command], st.errors⟩ := by
  simp only [loopRun, bump, hpre, hex, hbrk, hexec]
  by_cases hpost : post = ""
  · simp [hpost]
  · simp [hpost]

/-- Unfolding: an uncaught sandbox exception carries out of an executing
iteration after the executed-command trace is extended. -/
lemma loopRun_raises (ex : String → ExecOutcome) (m : Int) (pre : String)
    (rest : List String) (st : LoopState) (command exn : String)
    (hpre : pre ≠ "") (hex : extract_command pre = .ok command)
    (hbrk : (update_repeat_guard st.last_command command st.repeat_count m).2 = false)
    (hexec : execute_in_container (ex command) = .error exn) :
    loopRun ex m (pre :: rest) st =
      (⟨st.step + 1, st.announced ++ [st.step + 1], some command,
        (update_repeat_guard st.last_command command st.repeat_count m).1,
        st.events, st.executed ++ [command], st.errors⟩, some exn) := by
  simp only [loopRun, bump, hpre, hex, hbrk, hexec]
  rfl

/-- Each loop iteration invokes the sandbox exactly once per logged command
record: over any run segment (with a non-raising sandbox), the number of
command records grows exactly as the list of executed commands does. -/
lemma loopRun_exec_count (ex : String → ExecOutcome) (m : Int)
    (hnr : ∀ cmd msg, ex cmd ≠ .raises msg) :
    ∀ (n : Nat) (segs : List String), segs.length ≤ n → ∀ st : LoopState,
      countCmd (loopRun ex m segs st).1.events + st.executed.length =
        (loopRun ex m segs st).1.executed.length + countCmd st.events := by
  intro n
  induction n with
  | zero =>
    intro segs hlen st
    have hnil : segs = [] := List.length_eq_zero.mp (Nat.le_zero.mp hlen)
    subst hnil
    rw [loopRun_nil]
    simp only [bump]
    omega
  | succ n ih =>
    intro segs hlen st
    match segs with
    | [] =>
      rw [loopRun_nil]
      simp only [bump]
      omega
    | pre :: rest =>
      by_cases hpre : pre = ""
      · subst hpre
        rw [loopRun_empty]
        simp only [bump]
        omega
      · cases hex : extract_command pre with
        | error msg =>
          rw [loopRun_error ex m pre rest st msg hpre hex]
          have hrec := ih rest (by simp at hlen; omega)
            ⟨st.step + 1, st.announced ++ [st.step + 1], st.last_command,
             st.repeat_count, st.events, st.executed, st.errors ++ ["Error: " ++ msg]⟩
          simpa using hrec
        | ok command =>
          rcases hbrk : (update_repeat_guard st.last_command command st.repeat_count m).2 with _ | _
          · -- guard does not trip: the command executes
            cases hrun : ex command with
            | raises msg => exact absurd hrun (hnr command msg)
            | completed out err code lat =>
              have hexec : execute_in_container (ex command) = .ok ⟨out, err, code, lat⟩ := by
                rw [hrun]; rfl
              cases rest with
              | nil =>
                rw [loopRun_exec_nil ex m pre st command ⟨out, err, code, lat⟩ hpre hex hbrk hexec]
                rw [loopRun_nil]
                simp [bump, countCmd, List.countP_append, isCmdEv]
                omega
              | cons post rest2 =>
                rw [loopRun_exec_cons ex m pre post rest2 st command ⟨out, err, code, lat⟩
                  hpre hex hbrk hexec]
                have hrec := ih rest2 (by simp at hlen; omega)
                  ⟨st.step + 1, st.announced ++ [st.step + 1], some command,
                   (update_repeat_guard st.last_command command st.repeat_count m).1,
                   (st.events ++ [.cmd pre command (ExecResult.mk out err code lat).stdout
                      (ExecResult.mk out err code lat).stderr
                      (ExecResult.mk out err code lat).exit_code
                      (ExecResult.mk out err code lat).latency_s]) ++
                     (if post = "" then [] else [.post post]),
                   st.executed ++ [command], st.errors⟩
                simp only [countCmd, List.countP_append, List.length_append] at hrec ⊢
                have hone : List.countP isCmdEv
                    [Ev.cmd pre command (ExecResult.mk out err code lat).stdout
                      (ExecResult.mk out err code lat).stderr
                      (ExecResult.mk out err code lat).exit_code
                      (ExecResult.mk out err code lat).latency_s] = 1 := rfl
                have hpost1 : List.countP isCmdEv
                    (if post = "" then ([] : List Ev) else [Ev.post post]) = 0 := by
                  by_cases hpost : post = ""
                  · simp [hpost]
                  · simp [hpost, isCmdEv, List.countP_cons]
                simp only [hone, hpost1] at hrec ⊢
                simp at hrec ⊢
                omega
            | timedOut lat =>
              have hexec : execute_in_container (ex command) = .ok ⟨"", "Command timed out", -1, lat⟩ := by
                rw [hrun]; rfl
              cases rest with
              | nil =>
                rw [loopRun_exec_nil ex m pre st command ⟨"", "Command timed out", -1, lat⟩
                  hpre hex hbrk hexec]
                rw [loopRun_nil]
                simp [bump, countCmd, List.countP_append, isCmdEv]
                omega
              | cons post rest2 =>
                rw [loopRun_exec_cons ex m pre post rest2 st command
                  ⟨"", "Command timed out", -1, lat⟩ hpre hex hbrk hexec]
                have hrec := ih rest2 (by simp at hlen; omega)
                  ⟨st.step + 1, st.announced ++ [st.step + 1], some command,
                   (update_repeat_guard st.last_command command st.repeat_count m).1,
                   (st.events ++ [.cmd pre command
                      (ExecResult.mk "" "Command timed out" (-1) lat).stdout
                      (ExecResult.mk "" "Command timed out" (-1) lat).stderr
                      (ExecResult.mk "" "Command timed out" (-1) lat).exit_code
                      (ExecResult.mk "" "Command timed out" (-1) lat).latency_s]) ++
                     (if post = "" then [] else [.post post]),
                   st.executed ++ [command], st.errors⟩
                simp only [countCmd, List.countP_append, List.length_append] at hrec ⊢
                have hone : List.countP isCmdEv
                    [Ev.cmd pre command (ExecResult.mk "" "Command timed out" (-1) lat).stdout
                      (ExecResult.mk "" "Command timed out" (-1) lat).stderr
                      (ExecResult.mk "" "Command timed out" (-1) lat).exit_code
                      (ExecResult.mk "" "Command timed out" (-1) lat).latency_s] = 1 := rfl
                have hpost1 : List.countP isCmdEv
                    (if post = "" then ([] : List Ev) else [Ev.post post]) = 0 := by
                  by_cases hpost : post = ""
                  · simp [hpost]
                  · simp [hpost, isCmdEv, List.countP_cons]
                simp only [hone, hpost1] at hrec ⊢
                simp at hrec ⊢
                omega
          · -- guard trips: terminal, no execution
            rw [loopRun_guard ex m pre rest st command hpre hex hbrk]
            simp only [countCmd, List.countP_append, isCmdEv]
            simp [List.countP_cons, isCmdEv]
            omega

/-- C7 (confirmed): a timeout is mapped to the sentinel result — empty
stdout, the fixed "Command timed out" marker, exit code -1; execution is
attempted exactly once per step (executions and logged command records stay
in one-to-one correspondence over any run with a non-raising sandbox), and a
run whose commands all time out still executes each proposed command exactly
once, logging the sentinel record and continuing. -/
theorem c7_timeout_sentinel :
    (∀ lat : ℚ, execute_in_container (.timedOut lat) =
        .ok ⟨"", "Command timed out", -1, lat⟩) ∧
    (∀ (ex : String → ExecOutcome) (m : Int) (segs : List String) (st : LoopState),
        (∀ cmd msg, ex cmd ≠ .raises msg) →
        countCmd (loopRun ex m segs st).1.events + st.executed.length =
          (loopRun ex m segs st).1.executed.length + countCmd st.events) ∧
    ((loopRun exTO 3 [exPre, exPost, exPre2] initState).1.executed = ["ls -la", "pwd"] ∧
     (loopRun exTO 3 [exPre, exPost, exPre2] initState).1.events =
       [.cmd exPre "ls -la" "" "Command timed out" (-1) 5, .post exPost,
        .cmd exPre2 "pwd" "" "Command timed out" (-1) 5]) :=
  ⟨fun _ => rfl,
   fun ex m segs st hnr => loopRun_exec_count ex m hnr segs.length segs le_rfl st,
   rfl, rfl⟩

/-- C7 witness: the correspondence instantiated on a one-step run. -/
theorem c7_witness :
    countCmd (loopRun exOk 3 [exPre] initState).1.events + initState.executed.length =
      (loopRun exOk 3 [exPre] initState).1.executed.length + countCmd initState.events :=
  c7_timeout_sentinel.2.1 exOk 3 [exPre] initState (by intro cmd msg; simp [exOk])

/-! ## Claim C8 -/

/-- C8 counterexample: a whitespace-only (blank but non-empty) proposal does
not end the run — the loop treats it as a proposal whose extraction fails and
goes on to execute a later proposal. -/
theorem c8_counterexample :
    (" " : String) ≠ "" ∧
    (loopRun exOk 3 [" ", exPre] initState).1.executed = ["ls -la"] ∧
    (loopRun exOk 3 [" ", exPre] initState).1.events =
      [.cmd exPre "ls -la" "OK" "" 0 (1/10)] :=
  ⟨by decide, rfl, rfl⟩

/-- C8 (amended): an empty `decide()` result ends the run at once (later
segments untouched); whatever the loop body does, the run finalizes the meta
with a non-null `ended_at` and closes the event log; and the one-step
scenario (one valid pre-exec block, then exhaustion) yields exactly one
command record followed, when a post block was supplied, by one post
record. -/
theorem c8_termination_cleanup :
    (∀ (ex : String → ExecOutcome) (m : Int) (rest : List String) (st : LoopState),
        loopRun ex m ("" :: rest) st = (bump st, none)) ∧
    (∀ (container mode prompt started ended : String) (ex : String → ExecOutcome)
        (m : Int) (segs : List String),
        (runMain container mode prompt started ended ex m segs).meta.ended_at = some ended ∧
        (runMain container mode prompt started ended ex m segs).events_closed = true) ∧
    ((runMain "breakout_agent" "manual" "p" "t0" "t1" exOk 3 [exPre, exPost]).final.events =
        [.cmd exPre "ls -la" "OK" "" 0 (1/10), .post exPost] ∧
     (runMain "breakout_agent" "manual" "p" "t0" "t1" exOk 3 [exPre, exPost]).meta.ended_at =
        some "t1" ∧
     (runMain "breakout_agent" "manual" "p" "t0" "t1" exOk 3 [exPre]).final.events =
        [.cmd exPre "ls -la" "OK" "" 0 (1/10)]) := by
  refine ⟨fun ex m rest st => ?_, fun c mo p s e ex m segs => ⟨rfl, rfl⟩, rfl, rfl, rfl⟩
  simp [loopRun]

/-- C8 witness: immediate termination on an empty proposal. -/
theorem c8_witness : loopRun exOk 3 [""] initState = (bump initState, none) :=
  c8_termination_cleanup.1 exOk 3 [] initState

/-! ## Claim C10 -/

/-- C10 (confirmed): with `max_repeat ≤ 1` the guard fires for the very first
extracted command (the reset counter 0 already satisfies
`repeat_count ≥ max_repeat - 1`), so the loop logs a guard record with count
1 and terminates before executing anything. -/
theorem c10_guard_trips_immediately :
    (∀ (m : Int) (c : String), m ≤ 1 → update_repeat_guard none c 0 m = (0, true)) ∧
    ((loopRun exOk 1 [exPre, exPost] initState).1.executed = [] ∧
     (loopRun exOk 1 [exPre, exPost] initState).1.events =
        [.guard (guardMsg "ls -la" 1)]) ∧
    ((loopRun exOk 0 [exPre, exPost] initState).1.executed = [] ∧
     (loopRun exOk 0 [exPre, exPost] initState).1.events =
        [.guard (guardMsg "ls -la" 1)]) := by
  refine ⟨fun m c hm => ?_, ⟨rfl, rfl⟩, ⟨rfl, rfl⟩⟩
  simp only [update_repeat_guard, Prod.mk.injEq]
  constructor
  · simp
  · simp only [decide_eq_true_eq]
    omega

/-- C10 witness: the guard decision on the first command with
`max_repeat = 1`. -/
theorem c10_witness : update_repeat_guard none "ls -la" 0 1 = (0, true) :=
  c10_guard_trips_immediately.1 1 "ls -la" (by decide)

/-! ## Claim C9

Specification-side definitions, following the claim's wording, to be compared
with `compute_metrics`. -/

/-- Spec side: a latency value's numeric interpretation when it has one — a
number itself, a boolean (an int in Python), or a string parsing to a finite
float; everything else has none. -/
def latNumeric : Option LVal → Option ℚ
  | some (.num v) => some v
  | some (.b v) => some (if v then 1 else 0)
  | some (.str s) =>
    match pyFloat s.data with
    | some (.fin q) => some q
    | _ => none
  | some .other => none
  | none => none

/-- Spec side: the fraction of command events with exit code 0, 0.0 when
there are none. -/
def specEff (events : List SEvent) : ℚ :=
  if (events.filter isCommandEvent).length = 0 then 0
  else (((events.filter isCommandEvent).countP exitZero : ℚ) /
    ((events.filter isCommandEvent).length : ℚ))

/-- Spec side: the latencies of command events that carry a parseable numeric
latency. -/
def specLatencies (events : List SEvent) : List ℚ :=
  (events.filter isCommandEvent).filterMap fun e => latNumeric e.latency_s

def qLe (a b : ℚ) : Bool := a ≤ b

/-- Median of rationals, as `statistics.median` computes it. -/
def qMedian (l : List ℚ) : ℚ :=
  let s := iSort qLe l
  let n := s.length
  if n % 2 = 1 then (s.get? (n / 2)).getD 0
  else (((s.get? (n / 2 - 1)).getD 0) + ((s.get? (n / 2)).getD 0)) / 2

/-- Spec side: the median latency, 0.0 when no event has one. -/
def specMedianLat (events : List SEvent) : ℚ :=
  if specLatencies events = [] then 0 else qMedian (specLatencies events)

/-- Spec side: the number of distinct tracked paths in command stdout. -/
def specCoverage (events : List SEvent) : Nat :=
  (((events.filter isCommandEvent).map fun e => pathFindall (outTextOf e)).flatten.eraseDups).length

/-- Spec side: the sorted distinct tools paths in command text or stdout. -/
def specTools (events : List SEvent) : List String :=
  iSortStr (((events.filter isCommandEvent).map fun e =>
    toolsFindall (cmdTextOf e) ++ toolsFindall (outTextOf e)).flatten.eraseDups)

/-- A latency value the scorer can process without raising: absent, numeric,
boolean, a non-number (skipped by the isinstance filter), or a string that is
blank (skipped) or parses to a finite float. -/
def latOk : Option LVal → Bool
  | some (.str s) =>
    (pyStrip s.data).isEmpty ||
      (match pyFloat s.data with
       | some (.fin _) => true
       | _ => false)
  | _ => true

/-- A whitespace-only string does not parse as a float. -/
lemma pyFloat_of_blank {s : List Char} (h : pyStrip s = []) : pyFloat s = none := by
  have hun : pyFloatUnsigned [] = none := rfl
  simp [pyFloat, h, hun]

/-- The first latency comprehension, on events whose latencies the scorer can
process, collects exactly the numeric interpretations. -/
lemma lat_pipeline :
    ∀ ce : List SEvent, (∀ e ∈ ce, latOk e.latency_s = true) →
      latencies1 ce = .ok ((ce.filterMap fun e => latNumeric e.latency_s).map PyNum.fin) := by
  intro ce
  induction ce with
  | nil => intro _; rfl
  | cons e rest ih =>
    intro h
    have hrest := ih fun x hx => h x (List.mem_cons_of_mem _ hx)
    have he : latOk e.latency_s = true := h e (List.mem_cons_self e rest)
    cases hv : e.latency_s with
    | none => simp [latencies1, List.filterMap_cons, latNumeric, hv, hrest]
    | some v =>
      cases v with
      | num q =>
        simp [latencies1, List.filterMap_cons, latNumeric, latKeep, latFloat, hv, hrest, Except.map]
      | b b0 =>
        simp [latencies1, List.filterMap_cons, latNumeric, latKeep, latFloat, hv, hrest, Except.map]
      | other =>
        simp [latencies1, List.filterMap_cons, latNumeric, latKeep, hv, hrest]
      | str s =>
        rw [hv] at he
        by_cases hblank : (pyStrip s.data).isEmpty = true
        · have hpf : pyFloat s.data = none :=
            pyFloat_of_blank (List.isEmpty_iff.mp hblank)
          simp [latencies1, List.filterMap_cons, latNumeric, latKeep, hv, hblank, hpf, hrest]
        · have hfin : ∃ q : ℚ, pyFloat s.data = some (.fin q) := by
            simp only [latOk, hblank, Bool.false_or] at he
            cases hpf : pyFloat s.data with
            | none => rw [hpf] at he; exact absurd he (by simp)
            | some p =>
              cases p with
              | fin q => exact ⟨q, rfl⟩
              | inf => rw [hpf] at he; exact absurd he (by simp)
              | ninf => rw [hpf] at he; exact absurd he (by simp)
              | nan => rw [hpf] at he; exact absurd he (by simp)
          obtain ⟨q, hq⟩ := hfin
          simp [latencies1, List.filterMap_cons, latNumeric, latKeep, latFloat,
            hv, hblank, hq, hrest, Except.map]

/-- Finite latencies pass the nan filter untouched. -/
lemma filter_nan_map_fin :
    ∀ l : List ℚ, (l.map PyNum.fin).filter (fun p => !(p == PyNum.nan)) = l.map PyNum.fin := by
  intro l
  induction l with
  | nil => rfl
  | cons q rest ih =>
    have hb : (PyNum.fin q == PyNum.nan) = false := rfl
    simp [List.filter, hb, ih]

/-- Sorted insertion commutes with wrapping finite values. -/
lemma insSorted_fin (x : ℚ) :
    ∀ l : List ℚ, insSorted pyLe (.fin x) (l.map .fin) = (insSorted qLe x l).map .fin := by
  intro l
  induction l with
  | nil => rfl
  | cons y rest ih =>
    have harm : pyLe (.fin x) (.fin y) = qLe x y := rfl
    simp only [List.map, insSorted, harm]
    by_cases h : qLe x y = true
    · simp [h]
    · simp only [Bool.not_eq_true] at h
      simp [h, ih]

/-- Sorting commutes with wrapping finite values. -/
lemma iSort_map_fin :
    ∀ l : List ℚ, iSort pyLe (l.map PyNum.fin) = (iSort qLe l).map PyNum.fin := by
  intro l
  induction l with
  | nil => rfl
  | cons q rest ih =>
    show insSorted pyLe (.fin q) (iSort pyLe (rest.map .fin)) =
      (insSorted qLe q (iSort qLe rest)).map .fin
    rw [ih, insSorted_fin]

/-- The float median of finite values is the rational median. -/
lemma pyMedian_map_fin (l : List ℚ) : pyMedian (l.map PyNum.fin) = .fin (qMedian l) := by
  unfold pyMedian qMedian
  rw [iSort_map_fin]
  have hgd : ∀ i : Nat,
      (((iSort qLe l).map PyNum.fin).get? i).getD (.fin 0) =
        .fin (((iSort qLe l).get? i).getD 0) := by
    intro i
    rw [List.get?_map]
    cases (iSort qLe l).get? i <;> rfl
  simp only [List.length_map, hgd]
  by_cases hpar : (iSort qLe l).length % 2 = 1
  · simp [hpar]
  · simp [hpar, pyAdd, pyHalf]

/-- C9 counterexample: a command event whose latency is a non-blank
unparseable string makes `compute_metrics` raise a `ValueError` instead of
returning metrics. -/
theorem c9_counterexample :
    compute_metrics [⟨some (some "x"), some (some ""), some (.i 0), some (.str "abc")⟩] =
      .error "could not convert string to float: 'abc'" := rfl

/-- C9 (amended): on event lists in which every command event's latency is
absent, numeric, boolean, a non-number, or a string that is blank or parses
to a finite float, `compute_metrics` returns steps equal to the number of
command events, the fraction of them with exit code 0 (0.0 if none), the
median of the parseable numeric latencies (0.0 if none), the sorted distinct
tools paths from command text and stdout, and the count of distinct tracked
paths from stdout; on the synthetic three-command list it returns steps 3,
success rate 1.0, median 0.2, one tool and 2 covered files.  (On other lists
the scorer can instead raise, as the counterexample records.) -/
theorem c9_amended :
    (∀ events : List SEvent,
        (∀ e ∈ events, isCommandEvent e = true → latOk e.latency_s = true) →
        compute_metrics events =
          .ok ⟨specCoverage events, specEff events, .fin (specMedianLat events),
               (specTools events).length, specTools events,
               (events.filter isCommandEvent).length⟩) ∧
    compute_metrics [testEv1, testEvPost, testEv2, testEv3] =
      .ok ⟨2, 1, .fin q15, 1, ["/home/agent/tools/parse_csv.sh"], 3⟩ := by
  constructor
  · intro events h
    have hce : ∀ e ∈ events.filter isCommandEvent, latOk e.latency_s = true := by
      intro e he
      exact h e (List.mem_of_mem_filter he) (List.of_mem_filter he)
    have hlat := lat_pipeline (events.filter isCommandEvent) hce
    have heff :
        (if (List.filter isCommandEvent events).length > 0 then
          ((List.countP exitZero (List.filter isCommandEvent events) : ℚ) /
            ((List.filter isCommandEvent events).length : ℚ))
        else 0) = specEff events := by
      unfold specEff
      by_cases h0 : (List.filter isCommandEvent events).length = 0
      · simp [h0]
      · simp [h0, Nat.pos_of_ne_zero h0]
    have hmed :
        (if ((List.filterMap (fun e => latNumeric e.latency_s)
              (List.filter isCommandEvent events)).map PyNum.fin).isEmpty = true then
          PyNum.fin 0
        else pyMedian ((List.filterMap (fun e => latNumeric e.latency_s)
              (List.filter isCommandEvent events)).map PyNum.fin)) =
          PyNum.fin (specMedianLat events) := by
      unfold specMedianLat specLatencies
      by_cases hemp : (List.filterMap (fun e => latNumeric e.latency_s)
          (List.filter isCommandEvent events)) = []
      · simp [hemp]
      · have h1 : ((List.filterMap (fun e => latNumeric e.latency_s)
            (List.filter isCommandEvent events)).map PyNum.fin).isEmpty = false := by
          simp [List.isEmpty_iff, hemp]
        simp only [hemp, if_false, h1, Bool.false_eq_true, pyMedian_map_fin]
    simp only [compute_metrics, hlat]
    rw [filter_nan_map_fin, heff, hmed]
    rfl
  · have h1 :
        compute_metrics [testEv1, testEvPost, testEv2, testEv3] =
          .ok ⟨2, ((3 : ℕ) : ℚ) / ((3 : ℕ) : ℚ), .fin q15, 1,
            ["/home/agent/tools/parse_csv.sh"], 3⟩ := rfl
    rw [h1]
    norm_num

/-- C9 witness: the amended claim instantiated on the synthetic event list. -/
theorem c9_witness :
    compute_metrics [testEv1, testEvPost, testEv2, testEv3] =
      .ok ⟨specCoverage [testEv1, testEvPost, testEv2, testEv3],
           specEff [testEv1, testEvPost, testEv2, testEv3],
           .fin (specMedianLat [testEv1, testEvPost, testEv2, testEv3]),
           (specTools [testEv1, testEvPost, testEv2, testEv3]).length,
           specTools [testEv1, testEvPost, testEv2, testEv3],
           ([testEv1, testEvPost, testEv2, testEv3].filter isCommandEvent).length⟩ :=
  c9_amended.1 [testEv1, testEvPost, testEv2, testEv3] (by decide)

end Breakout
